import Mathlib

/-!
Verification of the `cmd/utils.go` helper layer of the gocmd repository.

The Go code is shallowly embedded in Lean: Go strings become `List Char`
(`GoStr`), the `map[string]bool` sets become insertion-ordered duplicate-free
key lists, the filesystem becomes an association list from paths to file data,
and a Go runtime panic becomes `Option.none`.
-/

namespace GoCmd

/-- Go strings are modelled as lists of characters. -/
abbrev GoStr := List Char

/-- `strings.Split(s, sep)` for a one-character separator: split around every
occurrence of `sep`; the empty string yields one empty field. -/
def splitOnChar (sep : Char) : GoStr → List GoStr
  | [] => [[]]
  | c :: cs =>
    let r := splitOnChar sep cs
    if c = sep then [] :: r
    else
      match r with
      | t :: ts => (c :: t) :: ts
      | [] => [[c]]

/-- `strings.HasPrefix`. -/
def hasPrefixGo : GoStr → GoStr → Bool
  | [], _ => true
  | _ :: _, [] => false
  | p :: ps, c :: cs => p = c && hasPrefixGo ps cs

/-- The whitespace class of Go `unicode.IsSpace` restricted to the characters
this tool output can contain: tab, newline, vertical tab, form feed, carriage
return, space, next line (U+0085) and no-break space (U+00A0). -/
def isGoSpace (c : Char) : Bool :=
  c = '\t' || c = '\n' || c = Char.ofNat 11 || c = Char.ofNat 12 || c = '\r' ||
    c = ' ' || c = Char.ofNat 133 || c = Char.ofNat 160

/-- `strings.TrimSpace`: remove leading and trailing whitespace. -/
def trimSpace (l : GoStr) : GoStr :=
  List.reverse (List.dropWhile isGoSpace (List.reverse (List.dropWhile isGoSpace l)))

/-- The whitespace class `\s` of Go regular expressions (RE2): tab, newline,
form feed, carriage return and space. -/
def isRe2Space (c : Char) : Bool :=
  c = '\t' || c = '\n' || c = Char.ofNat 12 || c = '\r' || c = ' '

/-- `dropCR` of `bufio.ScanLines`: remove one trailing carriage return. -/
def dropCR (l : GoStr) : GoStr :=
  if l.getLast? = some '\r' then l.dropLast else l

/-- The lines produced by a `bufio.Scanner` with the default `ScanLines` split
function: split on newlines, drop a trailing carriage return from each line,
and do not produce a final empty line for input ending in a newline. -/
def scanLines (s : GoStr) : List GoStr :=
  let ls := splitOnChar '\n' s
  (if ls.getLast? = some [] then ls.dropLast else ls).map dropCR

/-- `fmt.Sprintf` rendering of the elements of a Go string slice separated by
single spaces (the part between the brackets of `[a b c]`). -/
def joinSpace : List GoStr → GoStr
  | [] => []
  | [x] => x
  | x :: xs => x ++ ' ' :: joinSpace xs

/-- `fmt.Sprintf("%s", slice)` for a `[]string`: the elements separated by
spaces, between square brackets. -/
def formatStringSlice (l : List GoStr) : GoStr :=
  '[' :: joinSpace l ++ [']']

/-! ## Output patterns and their callbacks -/

/-- Which callback a compiled output pattern carries (`gofrogio` stores a Go
function pointer; the embedding stores a tag naming it). -/
inductive ExecFuncTag
  | maskCredentials
  | errorFunc
  deriving DecidableEq

/-- `gofrogio.CmdOutputPattern`. A compiled regular expression is represented
by its source text; the zero value of the struct has a nil `RegExp` and a nil
`ExecFunc`. -/
structure CmdOutputPattern where
  RegExp : Option GoStr
  MatchedResults : List GoStr
  Line : GoStr
  ExecFunc : Option ExecFuncTag
  deriving DecidableEq

/-- Modelled from the spec: `errorutils.CheckError` of jfrog-client-go is not
part of this repository; on a non-nil error it returns a non-nil error carrying
the same message. -/
def checkError (e : GoStr) : GoStr := e

/-- Modelled from the spec: `utils.MaskCredentials` of jfrog-client-go is not
part of this repository; the spec describes the handler as redacting the
matched secret, so the model replaces the first occurrence of the credentials
substring in the line with the mask `***`. -/
def maskCredentials (credentials : GoStr) : GoStr → GoStr
  | [] => []
  | c :: cs =>
    if hasPrefixGo credentials (c :: cs) && !(credentials = []) then
      ("***".data) ++ (c :: cs).drop credentials.length
    else c :: maskCredentials credentials cs

/-- `MaskCredentials` of `cmd/utils.go`: return the line with
`MatchedResults[0]` masked, and a nil error. Indexing an empty
`MatchedResults` slice panics, which the model renders as `none`. -/
def MaskCredentials (pattern : CmdOutputPattern) : Option (GoStr × Option GoStr) :=
  match pattern.MatchedResults with
  | [] => none
  | m0 :: _ => some (maskCredentials m0 pattern.Line, none)

/-- `Error` of `cmd/utils.go`. The write of `pattern.Line` to stderr is an
effect outside the embedding; its outcome enters as `writeErr` (`none` when the
write succeeds). Every branch returns an empty replacement line and a non-nil
error: the write error, or `MatchedResults[2] + ":" + TrimSpace(MatchedResults[1])`
when at least three results matched, or a message listing the matched results. -/
def Error (writeErr : Option GoStr) (pattern : CmdOutputPattern) : GoStr × Option GoStr :=
  match writeErr with
  | some e => ([], some (checkError e))
  | none =>
    if 3 ≤ pattern.MatchedResults.length then
      ([], some (pattern.MatchedResults.getD 2 [] ++ ':' :: trimSpace (pattern.MatchedResults.getD 1 [])))
    else
      ([], some (("Regex found the following values: ".data) ++ formatStringSlice pattern.MatchedResults))

/-! ## Pre-compilation of the global output patterns -/

/-- Modelled from the spec: the constant `utils.CredentialsInUrlRegexp` of
jfrog-client-go, the credentials-in-URL pattern compiled into the protocol
pattern. Its exact text is external to this repository; only its identity
matters to the claims. -/
def CredentialsInUrlRegexp : GoStr := ("((http|https):\\/\\/\\w.*?:\\w.*?@)".data)

/-- The "404 Not Found" pattern text of `prepareGlobalRegExp`. -/
def notFoundRegexText : GoStr :=
  ("^go: ([^\\/\\r\\n]+\\/[^\\r\\n\\s:]*).*(404 Not Found[\\s]?)$".data)

/-- The "unrecognized import path" pattern text of `prepareGlobalRegExp`. -/
def unrecognizedImportRegexText : GoStr :=
  ("[^go:]([^\\/\\r\\n]+\\/[^\\r\\n\\s:]*).*(unrecognized import path)".data)

/-- The "unknown revision" pattern text of `prepareGlobalRegExp`. -/
def unknownRevisionRegexText : GoStr :=
  ("[^go:]([^\\/\\r\\n]+\\/[^\\r\\n\\s:]*).*(unknown revision)".data)

/-- The git fetch error pattern text of `prepareGlobalRegExp`. -/
def gitFetchErrorRegexText : GoStr :=
  ("^go: ([^:]+): git fetch .+ (exit status [^0]\\d*)".data)

/-- The zip-not-found pattern text of `prepareNotFoundZipRegExp`. -/
def notFoundZipRegexText : GoStr :=
  ("unknown import path [\"]([^\\/\\r\\n]+\\/[^\\r\\n\\s:]*)[\"].*(404( Not Found)?[\\s]?)$".data)

/-- The environment's regular-expression compiler (`utils.GetRegExp`, i.e.
`regexp.Compile`): it either produces a compiled pattern or fails with an
error message. The embedding keeps it abstract so that error propagation
can be stated for failing compilations. -/
abbrev Compile := GoStr → Except GoStr GoStr

/-- `initRegExp` of `cmd/utils.go`: compile the regex and attach the callback.
On a compilation error it returns the zero-valued pattern struct together with
the error. -/
def initRegExp (compile : Compile) (regex : GoStr) (execFunc : ExecFuncTag) :
    CmdOutputPattern × Option GoStr :=
  match compile regex with
  | Except.error e =>
    ({ RegExp := none, MatchedResults := [], Line := [], ExecFunc := none }, some e)
  | Except.ok r =>
    ({ RegExp := some r, MatchedResults := [], Line := [], ExecFunc := some execFunc }, none)

/-- The six package-level pattern variables of `cmd/utils.go` (nil before
initialization). -/
structure RegexpState where
  protocolRegExp : Option CmdOutputPattern
  notFoundRegExp : Option CmdOutputPattern
  unrecognizedImportRegExp : Option CmdOutputPattern
  unknownRevisionRegExp : Option CmdOutputPattern
  gitFetchErrorRegExp : Option CmdOutputPattern
  notFoundZipRegExp : Option CmdOutputPattern
  deriving DecidableEq

/-- One `if X == nil { X, err = initRegExp(...) }` block: when the pattern
variable is already set it is left alone with a nil block error, otherwise the
regex is compiled into it and the block error is the compilation error. -/
def initBlock (compile : Compile) (regex : GoStr) (tag : ExecFuncTag)
    (cur : Option CmdOutputPattern) : Option CmdOutputPattern × Option GoStr :=
  match cur with
  | some p => (some p, none)
  | none =>
    let r := initRegExp compile regex tag
    (some r.1, r.2)

/-- `prepareGlobalRegExp` of `cmd/utils.go`: the five nil-checked blocks in
source order. The first three blocks check the compilation error and return it
immediately; the source omits that check after the unknown-revision and
git-fetch blocks, so the shared `err` variable (nil when the fourth block is
reached) is returned as left by the last block that ran: a git-fetch block
that runs overwrites the unknown-revision block's error. -/
def prepareGlobalRegExp (compile : Compile) (st : RegexpState) : RegexpState × Option GoStr :=
  let b1 := initBlock compile CredentialsInUrlRegexp ExecFuncTag.maskCredentials st.protocolRegExp
  let st1 := { st with protocolRegExp := b1.1 }
  match b1.2 with
  | some e => (st1, some e)
  | none =>
    let b2 := initBlock compile notFoundRegexText ExecFuncTag.errorFunc st1.notFoundRegExp
    let st2 := { st1 with notFoundRegExp := b2.1 }
    match b2.2 with
    | some e => (st2, some e)
    | none =>
      let b3 := initBlock compile unrecognizedImportRegexText ExecFuncTag.errorFunc
        st2.unrecognizedImportRegExp
      let st3 := { st2 with unrecognizedImportRegExp := b3.1 }
      match b3.2 with
      | some e => (st3, some e)
      | none =>
        let b4 := initBlock compile unknownRevisionRegexText ExecFuncTag.errorFunc
          st3.unknownRevisionRegExp
        let st4 := { st3 with unknownRevisionRegExp := b4.1 }
        match st4.gitFetchErrorRegExp with
        | some _ => (st4, b4.2)
        | none =>
          let r := initRegExp compile gitFetchErrorRegexText ExecFuncTag.errorFunc
          ({ st4 with gitFetchErrorRegExp := some r.1 }, r.2)

/-- `prepareNotFoundZipRegExp` of `cmd/utils.go`. -/
def prepareNotFoundZipRegExp (compile : Compile) (st : RegexpState) : RegexpState × Option GoStr :=
  let b := initBlock compile notFoundZipRegexText ExecFuncTag.errorFunc st.notFoundZipRegExp
  ({ st with notFoundZipRegExp := b.1 }, b.2)

/-- `prepareRegExp` of `cmd/utils.go`: run `prepareGlobalRegExp`, stop on its
error, otherwise run `prepareNotFoundZipRegExp`. -/
def prepareRegExp (compile : Compile) (st : RegexpState) : RegexpState × Option GoStr :=
  match prepareGlobalRegExp compile st with
  | (st1, some e) => (st1, some e)
  | (st1, none) => prepareNotFoundZipRegExp compile st1

/-! ## The filesystem model and the go.sum snapshot operations -/

/-- The data of a regular file: its byte content (as a string) and its
permission mode. -/
structure FileData where
  content : GoStr
  mode : Nat
  deriving DecidableEq

/-- The part of `os.FileInfo` the code consumes: the file mode. -/
structure FileInfo where
  mode : Nat
  deriving DecidableEq

/-- The filesystem, as an association list from paths to file data. -/
abbrev FS := List (GoStr × FileData)

/-- Path lookup (`os.Stat` succeeding, `fileutils.IsFileExists` truth). -/
def fsLookup : FS → GoStr → Option FileData
  | [], _ => none
  | e :: es, p => if e.1 = p then some e.2 else fsLookup es p

/-- `os.Remove`: drop the entry of the path. -/
def fsRemove : FS → GoStr → FS
  | [], _ => []
  | e :: es, p => if e.1 = p then fsRemove es p else e :: fsRemove es p

/-- `ioutil.WriteFile`: truncate an existing file keeping its mode, or create
the file with the given permission mode. -/
def fsWrite (fs : FS) (p : GoStr) (content : GoStr) (perm : Nat) : FS :=
  match fsLookup fs p with
  | some old => fsRemove fs p ++ [(p, { content := content, mode := old.mode })]
  | none => fs ++ [(p, { content := content, mode := perm })]

/-- `filepath.Join(rootProjectDir, "go.sum")`. -/
def sumPath (rootProjectDir : GoStr) : GoStr :=
  rootProjectDir ++ '/' :: ("go.sum".data)

/-- `GetFileDetails` of `cmd/utils.go`: stat the file, then read it; a missing
file is a stat error. -/
def GetFileDetails (fs : FS) (filePath : GoStr) : Option GoStr × Option FileInfo × Option GoStr :=
  match fsLookup fs filePath with
  | none => (none, none, some ("stat: no such file or directory".data))
  | some f => (some f.content, some { mode := f.mode }, none)

/-- `GetSumContentAndRemove` of `cmd/utils.go`: when `go.sum` exists under the
root project directory, read its content and stat, remove it, and return them;
when it does not exist, return nil content, nil stat and nil error. The first
component is the filesystem after the call. -/
def GetSumContentAndRemove (fs : FS) (rootProjectDir : GoStr) :
    FS × Option GoStr × Option FileInfo × Option GoStr :=
  if (fsLookup fs (sumPath rootProjectDir)).isSome then
    match GetFileDetails fs (sumPath rootProjectDir) with
    | (content, stat, some e) => (fs, content, stat, some e)
    | (content, stat, none) => (fsRemove fs (sumPath rootProjectDir), content, stat, none)
  else (fs, none, none, none)

/-- `RestoreSumFile` of `cmd/utils.go`: write the saved content back to
`go.sum` with the saved mode. -/
def RestoreSumFile (fs : FS) (rootProjectDir : GoStr) (sumFileContent : GoStr)
    (sumFileStat : FileInfo) : FS × Option GoStr :=
  (fsWrite fs (sumPath rootProjectDir) sumFileContent sumFileStat.mode, none)

/-! ## Parsing go.sum entries -/

/-- The text of `moduleEntryInSumFileRegexp`. -/
def moduleEntryInSumFileRegexp : GoStr := ("([^\\s]+) (v[^\\/]+)\\/go\\.mod".data)

/-- Matching `moduleEntryInSumFileRegexp` at one start position. The pattern
is deterministic: group one is a maximal nonempty run of non-whitespace
characters, followed by a literal space, a literal `v`, a maximal nonempty run
of non-slash characters (group two includes the `v`), and the literal
`/go.mod`. -/
def matchSumEntryAt (l : GoStr) : Option (GoStr × GoStr) :=
  let g1 := l.takeWhile (fun c => !(isRe2Space c))
  if g1 = [] then none
  else
    match l.drop g1.length with
    | ' ' :: 'v' :: r2 =>
      let body := r2.takeWhile (fun c => !(c = '/'))
      if body = [] then none
      else if hasPrefixGo ("/go.mod".data) (r2.drop body.length) then
        some (g1, 'v' :: body)
      else none
    | _ => none

/-- `moduleEntryInSumFileRegexp.FindStringSubmatch`: the leftmost match of the
pattern in the line, as the pair of its two capture groups. -/
def findModuleEntry : GoStr → Option (GoStr × GoStr)
  | [] => none
  | c :: cs =>
    match matchSumEntryAt (c :: cs) with
    | some r => some r
    | none => findModuleEntry cs

/-- The body of the scanner loop of `FetchModulesFromGoSum`: on a line with a
match, append `module@version` to the list. -/
def sumLineFold (modules : List GoStr) (l : GoStr) : List GoStr :=
  match findModuleEntry l with
  | some mv => modules ++ [mv.1 ++ '@' :: mv.2]
  | none => modules

/-- `FetchModulesFromGoSum` of `cmd/utils.go`: when `go.sum` exists, scan its
lines and collect `module@version` for every line on which
`moduleEntryInSumFileRegexp` matches; when it does not exist, return the nil
list and nil error. -/
def FetchModulesFromGoSum (fs : FS) (rootProjectDir : GoStr) : List GoStr × Option GoStr :=
  if (fsLookup fs (sumPath rootProjectDir)).isSome then
    match GetFileDetails fs (sumPath rootProjectDir) with
    | (_, _, some e) => ([], some e)
    | (some content, _, none) => ((scanLines content).foldl sumLineFold [], none)
    | (none, _, none) => ([], none)
  else ([], none)

/-! ## Merging the dependency graph outputs -/

/-- Insertion into the `map[string]bool` set: adding a present key leaves the
map unchanged; a new key is appended. -/
def mapInsert (m : List GoStr) (k : GoStr) : List GoStr :=
  if k ∈ m then m else m ++ [k]

/-- The stdout loop body of `outputToMap`: a line splitting on single spaces
into exactly two fields contributes its second field. -/
def processGraphLine (m : List GoStr) (line : GoStr) : List GoStr :=
  match splitOnChar ' ' line with
  | [_, b] => mapInsert m b
  | _ => m

/-- The prefix `"go: finding"` tested by the stderr loop of `outputToMap`. -/
def goFindingText : GoStr := ("go: finding".data)

/-- The stderr loop body of `outputToMap`. A line starting with `go: finding`
is sliced at byte 12 and split on spaces, and `parts[0]@parts[1]` is added.
Slicing a line shorter than 12 characters panics, as does indexing `parts[1]`
when fewer than two fields result; a panic is `none`. -/
def processErrLine (m : List GoStr) (line : GoStr) : Option (List GoStr) :=
  if hasPrefixGo goFindingText line then
    if line.length < 12 then none
    else
      match splitOnChar ' ' (line.drop 12) with
      | p0 :: p1 :: _ => some (mapInsert m (p0 ++ '@' :: p1))
      | _ => none
  else some m

/-- The stderr loop of `outputToMap`, threading the possibility of a panic. -/
def foldErrLines (m : List GoStr) : List GoStr → Option (List GoStr)
  | [] => some m
  | l :: ls =>
    match processErrLine m l with
    | none => none
    | some m2 => foldErrLines m2 ls

/-- `outputToMap` of `cmd/utils.go`: fold the stdout lines, then the stderr
lines, into one key set; `none` models the panic the stderr loop can raise. -/
def outputToMap (output errorOutput : GoStr) : Option (List GoStr) :=
  let m := (splitOnChar '\n' output).foldl processGraphLine []
  foldErrLines m (splitOnChar '\n' errorOutput)

/-! ## Auxiliary data for the statements and their instances -/

/-- The `module@version` identifier contributed by a go.sum line, when the
entry pattern matches it: the characterization `FetchModulesFromGoSum` is
proved against. -/
def sumEntryId (l : GoStr) : Option GoStr :=
  (findModuleEntry l).map (fun mv => mv.1 ++ '@' :: mv.2)

/-- The package-level state before any initialization: all six patterns nil. -/
def initialRegexpState : RegexpState :=
  { protocolRegExp := none, notFoundRegExp := none, unrecognizedImportRegExp := none,
    unknownRevisionRegExp := none, gitFetchErrorRegExp := none, notFoundZipRegExp := none }

/-- A compiler that succeeds on every pattern (the behaviour of
`regexp.Compile` on the six constant patterns of the source). -/
def compileOk : Compile := fun s => Except.ok s

/-- The state after a first successful `prepareRegExp` from the initial
state under `compileOk`. -/
def stFull : RegexpState := (prepareRegExp compileOk initialRegexpState).1

/-- A compiler that fails exactly on the unknown-revision pattern and succeeds
on every other pattern. -/
def compileFailUnknownRevision : Compile := fun s =>
  if s = unknownRevisionRegexText then Except.error ("regexp compile error".data)
  else Except.ok s

/-- A filesystem whose go.sum under project root `p` holds two identical
module entry lines. -/
def dupSumFS : FS :=
  [(sumPath ("p".data),
    { content := ("m v1.0/go.mod h1:x\nm v1.0/go.mod h1:y".data), mode := 420 })]

/-- A filesystem whose go.sum under project root `proj` has content
`m v1.0/go.mod h1:x` and mode `420`. -/
def fsW : FS :=
  [(sumPath ("proj".data), { content := ("m v1.0/go.mod h1:x".data), mode := 420 })]

/-- A matched pattern with three matched results, for instantiating the
`Error` callback. -/
def errPatternW : CmdOutputPattern :=
  { RegExp := some notFoundRegexText,
    MatchedResults := [("go: example.com/x 404 Not Found".data), (" example.com/x ".data), ("404 Not Found".data)],
    Line := ("go: example.com/x 404 Not Found".data),
    ExecFunc := some ExecFuncTag.errorFunc }

/-- A matched pattern carrying credentials, for instantiating the
`MaskCredentials` callback. -/
def maskPatternW : CmdOutputPattern :=
  { RegExp := some CredentialsInUrlRegexp,
    MatchedResults := [("https://user:pw@".data)],
    Line := ("https://user:pw@x.com/mod".data),
    ExecFunc := some ExecFuncTag.maskCredentials }

/-! ## Lemmas about the filesystem model -/

theorem fsLookup_fsRemove_self (fs : FS) (p : GoStr) : fsLookup (fsRemove fs p) p = none := by
  induction fs with
  | nil => rfl
  | cons e es ih => by_cases h : e.1 = p <;> simp [fsRemove, h, fsLookup, ih]

theorem fsLookup_append_self (fs : FS) (p : GoStr) (f : FileData)
    (h : fsLookup fs p = none) : fsLookup (fs ++ [(p, f)]) p = some f := by
  induction fs with
  | nil => simp [fsLookup]
  | cons e es ih =>
    simp only [fsLookup] at h
    by_cases he : e.1 = p
    · simp [he] at h
    · simp only [List.cons_append, fsLookup, he, if_neg, ite_false]
      exact ih (by simpa [he] using h)

/-! ## Claim theorems -/

/-- C1: when go.sum exists with content `C` and mode `M`, a successful
`GetSumContentAndRemove` returns `C` and a stat of mode `M` with nil error and
deletes go.sum, and `RestoreSumFile` with the returned values recreates go.sum
with exactly the bytes `C` and mode `M`. -/
theorem getSum_restore_roundtrip (fs : FS) (root C : GoStr) (M : Nat)
    (h : fsLookup fs (sumPath root) = some { content := C, mode := M }) :
    (GetSumContentAndRemove fs root).2.1 = some C ∧
    (GetSumContentAndRemove fs root).2.2.1 = some { mode := M } ∧
    (GetSumContentAndRemove fs root).2.2.2 = none ∧
    fsLookup (GetSumContentAndRemove fs root).1 (sumPath root) = none ∧
    (RestoreSumFile (GetSumContentAndRemove fs root).1 root C { mode := M }).2 = none ∧
    fsLookup (RestoreSumFile (GetSumContentAndRemove fs root).1 root C { mode := M }).1
      (sumPath root) = some { content := C, mode := M } := by
  have h1 : GetSumContentAndRemove fs root =
      (fsRemove fs (sumPath root), some C, some { mode := M }, none) := by
    simp [GetSumContentAndRemove, GetFileDetails, h]
  have h2 : fsLookup (fsRemove fs (sumPath root)) (sumPath root) = none :=
    fsLookup_fsRemove_self fs (sumPath root)
  refine ⟨by rw [h1], by rw [h1], by rw [h1], by rw [h1]; exact h2, rfl, ?_⟩
  rw [h1]
  simp only [RestoreSumFile, fsWrite, h2]
  exact fsLookup_append_self _ _ _ h2

/-- Witness for C1 at a one-file filesystem. -/
theorem getSum_restore_roundtrip_witness :
    fsLookup fsW (sumPath ("proj".data)) =
      some { content := ("m v1.0/go.mod h1:x".data), mode := 420 } ∧
    fsLookup (RestoreSumFile (GetSumContentAndRemove fsW ("proj".data)).1 ("proj".data)
        ("m v1.0/go.mod h1:x".data) { mode := 420 }).1 (sumPath ("proj".data)) =
      some { content := ("m v1.0/go.mod h1:x".data), mode := 420 } :=
  ⟨rfl, (getSum_restore_roundtrip fsW ("proj".data) ("m v1.0/go.mod h1:x".data) 420 rfl).2.2.2.2.2⟩

/-- C9: an absent go.sum is success, not an error: `GetSumContentAndRemove`
returns nil content, nil stat and nil error leaving the filesystem untouched,
and `FetchModulesFromGoSum` returns an empty module list and nil error. -/
theorem absent_sum_is_success (fs : FS) (root : GoStr)
    (h : fsLookup fs (sumPath root) = none) :
    GetSumContentAndRemove fs root = (fs, none, none, none) ∧
    FetchModulesFromGoSum fs root = ([], none) := by
  constructor <;> simp [GetSumContentAndRemove, FetchModulesFromGoSum, h]

/-- Witness for C9 on the empty filesystem. -/
theorem absent_sum_is_success_witness :
    fsLookup ([] : FS) (sumPath ("proj".data)) = none ∧
    GetSumContentAndRemove ([] : FS) ("proj".data) = ([], none, none, none) ∧
    FetchModulesFromGoSum ([] : FS) ("proj".data) = ([], none) :=
  ⟨rfl, (absent_sum_is_success [] ("proj".data) rfl).1,
    (absent_sum_is_success [] ("proj".data) rfl).2⟩

/-- C4: with at least three matched results and a successful stderr write, the
`Error` callback returns an empty replacement line and a non-nil error whose
message is the third matched result, a colon, and the whitespace-trimmed
second matched result. -/
theorem error_callback_translates (p : CmdOutputPattern) (r0 r1 r2 : GoStr) (rest : List GoStr)
    (h : p.MatchedResults = r0 :: r1 :: r2 :: rest) :
    Error none p = ([], some (r2 ++ ':' :: trimSpace r1)) := by
  have hl : 3 ≤ p.MatchedResults.length := by
    rw [h]; simp [List.length_cons]
  simp [Error, hl, h, List.getD]

/-- Witness for C4 at a concrete matched pattern. -/
theorem error_callback_translates_witness :
    errPatternW.MatchedResults =
      ("go: example.com/x 404 Not Found".data) :: (" example.com/x ".data) ::
        ("404 Not Found".data) :: [] ∧
    Error none errPatternW = ([], some (("404 Not Found:example.com/x".data))) := by
  refine ⟨rfl, ?_⟩
  rw [error_callback_translates errPatternW _ _ _ [] rfl]
  decide

/-- C5: the `MaskCredentials` callback returns the pattern's line with the
first matched result redacted, and a nil error. -/
theorem maskCredentials_callback_masks (p : CmdOutputPattern) (m0 : GoStr) (rest : List GoStr)
    (h : p.MatchedResults = m0 :: rest) :
    MaskCredentials p = some (maskCredentials m0 p.Line, none) := by
  simp [MaskCredentials, h]

/-- Witness for C5 at a concrete credentials-bearing pattern. -/
theorem maskCredentials_callback_masks_witness :
    maskPatternW.MatchedResults = ("https://user:pw@".data) :: [] ∧
    MaskCredentials maskPatternW = some ((("***x.com/mod".data)), none) := by
  refine ⟨rfl, ?_⟩
  rw [maskCredentials_callback_masks maskPatternW (("https://user:pw@".data)) [] rfl]
  decide

/-- C10: in every branch — failed stderr write, three or more matched results,
or fewer — the `Error` callback returns the empty replacement line together
with a non-nil error. -/
theorem error_callback_always_empty_and_nonnil (writeErr : Option GoStr) (p : CmdOutputPattern) :
    (Error writeErr p).1 = [] ∧ (Error writeErr p).2.isSome = true := by
  cases writeErr with
  | some e => exact ⟨rfl, rfl⟩
  | none => by_cases hl : 3 ≤ p.MatchedResults.length <;> simp [Error, hl]

/-- C8: `outputToMap` is partial: it panics (modelled as `none`) on the stderr
line `go: finding`, which is shorter than 12 characters, and on the stderr
line `go: finding x`, whose remainder after slicing holds fewer than two
space-separated fields; on a well-formed finding line it returns the parsed
identifier. -/
theorem outputToMap_partial :
    outputToMap ("".data) (("go: finding").data) = none ∧
    outputToMap ("".data) (("go: finding x").data) = none ∧
    outputToMap ("".data) (("go: finding module version").data) =
      some [("module@version".data)] := by
  refine ⟨by decide, by decide, by decide⟩

/-- C7: the code drops a compilation error: with all six patterns nil and a
compiler failing exactly on the unknown-revision pattern, `prepareGlobalRegExp`
returns a nil error (the block for the unknown-revision pattern does not check
`err`, and the following git-fetch block overwrites it), leaving the
unknown-revision global set to the zero-valued pattern. -/
theorem prepareGlobalRegExp_swallows_unknown_revision_error :
    compileFailUnknownRevision unknownRevisionRegexText =
      Except.error ("regexp compile error".data) ∧
    (prepareGlobalRegExp compileFailUnknownRevision initialRegexpState).2 = none ∧
    (prepareGlobalRegExp compileFailUnknownRevision initialRegexpState).1.unknownRevisionRegExp =
      some { RegExp := none, MatchedResults := [], Line := [], ExecFunc := none } := by
  refine ⟨by rfl, by decide, by decide⟩

/-! ## Lemmas and theorems about `prepareRegExp` -/

theorem initBlock_fst_isSome (compile : Compile) (regex : GoStr) (tag : ExecFuncTag)
    (cur : Option CmdOutputPattern) : (initBlock compile regex tag cur).1.isSome = true := by
  cases cur <;> rfl

theorem prepareGlobalRegExp_allSome (compile : Compile) (st st' : RegexpState)
    (h : prepareGlobalRegExp compile st = (st', none)) :
    st'.protocolRegExp.isSome = true ∧ st'.notFoundRegExp.isSome = true ∧
    st'.unrecognizedImportRegExp.isSome = true ∧ st'.unknownRevisionRegExp.isSome = true ∧
    st'.gitFetchErrorRegExp.isSome = true ∧ st'.notFoundZipRegExp = st.notFoundZipRegExp := by
  simp only [prepareGlobalRegExp] at h
  repeat' split at h
  all_goals rw [Prod.mk.injEq] at h
  all_goals obtain ⟨hst, hb⟩ := h
  all_goals first
    | exact absurd hb (by simp)
    | (subst hst; simp_all [initBlock_fst_isSome])

theorem prepareRegExp_ok_allSome (compile : Compile) (st st' : RegexpState)
    (h : prepareRegExp compile st = (st', none)) :
    st'.protocolRegExp.isSome = true ∧ st'.notFoundRegExp.isSome = true ∧
    st'.unrecognizedImportRegExp.isSome = true ∧ st'.unknownRevisionRegExp.isSome = true ∧
    st'.gitFetchErrorRegExp.isSome = true ∧ st'.notFoundZipRegExp.isSome = true := by
  rcases hg : prepareGlobalRegExp compile st with ⟨stg, eg⟩
  unfold prepareRegExp at h
  rw [hg] at h
  cases eg with
  | some e => exact absurd (congrArg Prod.snd h) (by simp)
  | none =>
    obtain ⟨g1, g2, g3, g4, g5, -⟩ := prepareGlobalRegExp_allSome compile st stg hg
    simp only [prepareNotFoundZipRegExp] at h
    rw [Prod.mk.injEq] at h
    obtain ⟨hst, -⟩ := h
    subst hst
    exact ⟨g1, g2, g3, g4, g5, initBlock_fst_isSome _ _ _ _⟩

theorem prepareRegExp_fixed (compile : Compile) (st : RegexpState)
    (h1 : st.protocolRegExp.isSome = true) (h2 : st.notFoundRegExp.isSome = true)
    (h3 : st.unrecognizedImportRegExp.isSome = true) (h4 : st.unknownRevisionRegExp.isSome = true)
    (h5 : st.gitFetchErrorRegExp.isSome = true) (h6 : st.notFoundZipRegExp.isSome = true) :
    prepareRegExp compile st = (st, none) := by
  rcases st with ⟨o1, o2, o3, o4, o5, o6⟩
  obtain ⟨a1, rfl⟩ := Option.isSome_iff_exists.mp h1
  obtain ⟨a2, rfl⟩ := Option.isSome_iff_exists.mp h2
  obtain ⟨a3, rfl⟩ := Option.isSome_iff_exists.mp h3
  obtain ⟨a4, rfl⟩ := Option.isSome_iff_exists.mp h4
  obtain ⟨a5, rfl⟩ := Option.isSome_iff_exists.mp h5
  obtain ⟨a6, rfl⟩ := Option.isSome_iff_exists.mp h6
  rfl

/-- C6: a successful `prepareRegExp` leaves all six pattern globals non-nil,
and a second call is a no-op: it returns a nil error and leaves every
already-initialized pattern unchanged. -/
theorem prepareRegExp_idempotent (compile : Compile) (st st' : RegexpState)
    (h : prepareRegExp compile st = (st', none)) :
    (st'.protocolRegExp.isSome = true ∧ st'.notFoundRegExp.isSome = true ∧
     st'.unrecognizedImportRegExp.isSome = true ∧ st'.unknownRevisionRegExp.isSome = true ∧
     st'.gitFetchErrorRegExp.isSome = true ∧ st'.notFoundZipRegExp.isSome = true) ∧
    prepareRegExp compile st' = (st', none) := by
  obtain ⟨g1, g2, g3, g4, g5, g6⟩ := prepareRegExp_ok_allSome compile st st' h
  exact ⟨⟨g1, g2, g3, g4, g5, g6⟩, prepareRegExp_fixed compile st' g1 g2 g3 g4 g5 g6⟩

/-- Witness for C6: a successful first call from the uninitialized state under
an always-succeeding compiler. -/
theorem prepareRegExp_idempotent_witness :
    prepareRegExp compileOk initialRegexpState = (stFull, none) ∧
    ((stFull.protocolRegExp.isSome = true ∧ stFull.notFoundRegExp.isSome = true ∧
      stFull.unrecognizedImportRegExp.isSome = true ∧ stFull.unknownRevisionRegExp.isSome = true ∧
      stFull.gitFetchErrorRegExp.isSome = true ∧ stFull.notFoundZipRegExp.isSome = true) ∧
     prepareRegExp compileOk stFull = (stFull, none)) :=
  ⟨rfl, prepareRegExp_idempotent compileOk initialRegexpState stFull rfl⟩

/-! ## Lemmas and theorems about `FetchModulesFromGoSum` -/

theorem foldl_sumLineFold (ls : List GoStr) (acc : List GoStr) :
    ls.foldl sumLineFold acc = acc ++ ls.filterMap sumEntryId := by
  induction ls generalizing acc with
  | nil => simp
  | cons l ls ih =>
    simp only [List.foldl_cons, List.filterMap_cons]
    cases hf : findModuleEntry l with
    | none => simp [sumLineFold, sumEntryId, hf, ih]
    | some mv => simp [sumLineFold, sumEntryId, hf, ih]

/-- C3 counterexample: a go.sum with two identical entry lines yields the same
identifier twice — the result is not de-duplicated. -/
theorem fetchModules_duplicate_counterexample :
    (FetchModulesFromGoSum dupSumFS ("p".data)).1 =
      [("m@v1.0".data), ("m@v1.0".data)] ∧
    ¬ (FetchModulesFromGoSum dupSumFS ("p".data)).1.Nodup := by
  refine ⟨by decide, by decide⟩

/-- C3 (amended): when go.sum exists, `FetchModulesFromGoSum` returns with a
nil error the list holding, in line order, one `module@version` identifier for
every line on which the entry pattern matches; identifiers repeat when several
lines parse to the same identifier. -/
theorem fetchModules_parses (fs : FS) (root content : GoStr) (M : Nat)
    (h : fsLookup fs (sumPath root) = some { content := content, mode := M }) :
    FetchModulesFromGoSum fs root = ((scanLines content).filterMap sumEntryId, none) := by
  simp [FetchModulesFromGoSum, GetFileDetails, h, foldl_sumLineFold]

/-- Witness for C3 at a one-entry go.sum. -/
theorem fetchModules_parses_witness :
    fsLookup fsW (sumPath ("proj".data)) =
      some { content := ("m v1.0/go.mod h1:x".data), mode := 420 } ∧
    FetchModulesFromGoSum fsW ("proj".data) = ([("m@v1.0".data)], none) :=
  ⟨rfl, (fetchModules_parses fsW ("proj".data) ("m v1.0/go.mod h1:x".data) 420 rfl).trans
    (by decide)⟩

/-! ## Lemmas and theorems about `outputToMap` -/

theorem mem_mapInsert_self (m : List GoStr) (k : GoStr) : k ∈ mapInsert m k := by
  by_cases h : k ∈ m <;> simp [mapInsert, h]

theorem mem_mapInsert_of_mem (m : List GoStr) (k x : GoStr) (h : x ∈ m) : x ∈ mapInsert m k := by
  by_cases hk : k ∈ m <;> simp [mapInsert, hk, h]

theorem mem_mapInsert_iff (m : List GoStr) (k x : GoStr) :
    x ∈ mapInsert m k ↔ x ∈ m ∨ x = k := by
  by_cases hk : k ∈ m
  · simp only [mapInsert, hk, if_true]
    constructor
    · exact Or.inl
    · rintro (h | rfl)
      · exact h
      · exact hk
  · simp [mapInsert, hk]

theorem nodup_mapInsert (m : List GoStr) (k : GoStr) (h : m.Nodup) : (mapInsert m k).Nodup := by
  by_cases hk : k ∈ m
  · simpa [mapInsert, hk] using h
  · have happ : (m ++ [k]).Nodup := by
      refine List.Nodup.append h (List.nodup_singleton k) ?_
      intro a ha hb
      rw [List.mem_singleton] at hb
      subst hb
      exact hk ha
    simpa [mapInsert, hk] using happ

theorem mem_processGraphLine_of_mem (m : List GoStr) (l x : GoStr) (h : x ∈ m) :
    x ∈ processGraphLine m l := by
  unfold processGraphLine
  split
  · exact mem_mapInsert_of_mem _ _ _ h
  · exact h

theorem nodup_processGraphLine (m : List GoStr) (l : GoStr) (h : m.Nodup) :
    (processGraphLine m l).Nodup := by
  unfold processGraphLine
  split
  · exact nodup_mapInsert _ _ h
  · exact h

theorem processGraphLine_captures (m : List GoStr) (l a b : GoStr)
    (h : splitOnChar ' ' l = [a, b]) : b ∈ processGraphLine m l := by
  unfold processGraphLine
  rw [h]
  exact mem_mapInsert_self _ _

theorem mem_processGraphLine_cases (m : List GoStr) (l x : GoStr)
    (h : x ∈ processGraphLine m l) :
    x ∈ m ∨ ∃ a, splitOnChar ' ' l = [a, x] := by
  unfold processGraphLine at h
  split at h
  · rename_i a b heq
    rcases (mem_mapInsert_iff _ _ _).mp h with hm | rfl
    · exact Or.inl hm
    · exact Or.inr ⟨a, heq⟩
  · exact Or.inl h

theorem mem_foldl_graph_of_mem (ls : List GoStr) (m : List GoStr) (x : GoStr) (h : x ∈ m) :
    x ∈ ls.foldl processGraphLine m := by
  induction ls generalizing m with
  | nil => exact h
  | cons l ls ih => exact ih _ (mem_processGraphLine_of_mem _ _ _ h)

theorem nodup_foldl_graph (ls : List GoStr) (m : List GoStr) (h : m.Nodup) :
    (ls.foldl processGraphLine m).Nodup := by
  induction ls generalizing m with
  | nil => exact h
  | cons l ls ih => exact ih _ (nodup_processGraphLine _ _ h)

theorem foldl_graph_captures (ls : List GoStr) (m : List GoStr) (l a b : GoStr)
    (hl : l ∈ ls) (h : splitOnChar ' ' l = [a, b]) : b ∈ ls.foldl processGraphLine m := by
  revert hl
  induction ls generalizing m with
  | nil =>
    intro hl
    cases hl
  | cons l0 ls ih =>
    intro hl
    simp only [List.foldl_cons]
    rcases List.mem_cons.mp hl with rfl | hl'
    · exact mem_foldl_graph_of_mem ls (processGraphLine m l) b
        (processGraphLine_captures m l a b h)
    · exact ih (processGraphLine m l0) hl'

theorem foldl_graph_cases (ls : List GoStr) (m : List GoStr) (x : GoStr)
    (h : x ∈ ls.foldl processGraphLine m) :
    x ∈ m ∨ ∃ l ∈ ls, ∃ a, splitOnChar ' ' l = [a, x] := by
  induction ls generalizing m with
  | nil => exact Or.inl h
  | cons l0 ls ih =>
    rcases ih _ h with hm | ⟨l, hl, a, ha⟩
    · rcases mem_processGraphLine_cases _ _ _ hm with hm0 | ⟨a, ha⟩
      · exact Or.inl hm0
      · exact Or.inr ⟨l0, List.mem_cons_self _ _, a, ha⟩
    · exact Or.inr ⟨l, List.mem_cons_of_mem _ hl, a, ha⟩

theorem processErrLine_finding (m : List GoStr) (l p0 p1 : GoStr) (rest : List GoStr)
    (h1 : hasPrefixGo goFindingText l = true) (h2 : ¬ l.length < 12)
    (h3 : splitOnChar ' ' (l.drop 12) = p0 :: p1 :: rest) :
    processErrLine m l = some (mapInsert m (p0 ++ '@' :: p1)) := by
  simp [processErrLine, h1, h2, h3]

theorem processErrLine_some_cases (m m' : List GoStr) (l : GoStr)
    (h : processErrLine m l = some m') :
    m' = m ∨ ∃ p0 p1 rest, hasPrefixGo goFindingText l = true ∧ ¬ l.length < 12 ∧
      splitOnChar ' ' (l.drop 12) = p0 :: p1 :: rest ∧ m' = mapInsert m (p0 ++ '@' :: p1) := by
  unfold processErrLine at h
  split at h
  · rename_i hpre
    split at h
    · exact Option.noConfusion h
    · rename_i hlen
      split at h
      · rename_i p0 p1 rest heq
        exact Or.inr ⟨p0, p1, rest, hpre, hlen, heq, (Option.some.inj h).symm⟩
      · exact Option.noConfusion h
  · exact Or.inl (Option.some.inj h).symm

theorem mem_processErrLine_of_mem (m m2 : List GoStr) (l : GoStr) (x : GoStr)
    (h : processErrLine m l = some m2) (hx : x ∈ m) : x ∈ m2 := by
  rcases processErrLine_some_cases m m2 l h with rfl | ⟨p0, p1, rest, -, -, -, rfl⟩
  · exact hx
  · exact mem_mapInsert_of_mem _ _ _ hx

theorem nodup_processErrLine (m m2 : List GoStr) (l : GoStr)
    (h : processErrLine m l = some m2) (hm : m.Nodup) : m2.Nodup := by
  rcases processErrLine_some_cases m m2 l h with rfl | ⟨p0, p1, rest, -, -, -, rfl⟩
  · exact hm
  · exact nodup_mapInsert _ _ hm

theorem foldErr_mono (ls : List GoStr) (m m' : List GoStr) (x : GoStr)
    (h : foldErrLines m ls = some m') (hx : x ∈ m) : x ∈ m' := by
  revert h hx
  induction ls generalizing m with
  | nil =>
    intro h hx
    simp only [foldErrLines] at h
    rw [← Option.some.inj h]
    exact hx
  | cons l0 ls ih =>
    intro h hx
    unfold foldErrLines at h
    split at h
    · exact Option.noConfusion h
    · rename_i m2 heq
      exact ih m2 h (mem_processErrLine_of_mem _ _ _ _ heq hx)

theorem foldErr_nodup (ls : List GoStr) (m m' : List GoStr)
    (h : foldErrLines m ls = some m') (hm : m.Nodup) : m'.Nodup := by
  revert h hm
  induction ls generalizing m with
  | nil =>
    intro h hm
    simp only [foldErrLines] at h
    rw [← Option.some.inj h]
    exact hm
  | cons l0 ls ih =>
    intro h hm
    unfold foldErrLines at h
    split at h
    · exact Option.noConfusion h
    · rename_i m2 heq
      exact ih m2 h (nodup_processErrLine _ _ _ heq hm)

theorem foldErr_sound (ls : List GoStr) (m m' : List GoStr) (l p0 p1 : GoStr)
    (rest : List GoStr) (h : foldErrLines m ls = some m') (hl : l ∈ ls)
    (h1 : hasPrefixGo goFindingText l = true) (h2 : ¬ l.length < 12)
    (h3 : splitOnChar ' ' (l.drop 12) = p0 :: p1 :: rest) :
    (p0 ++ '@' :: p1) ∈ m' := by
  revert h hl
  induction ls generalizing m with
  | nil =>
    intro h hl
    cases hl
  | cons l0 ls ih =>
    intro h hl
    unfold foldErrLines at h
    split at h
    · exact Option.noConfusion h
    · rename_i m2 heq
      rcases List.mem_cons.mp hl with rfl | hl'
      · rw [processErrLine_finding m l p0 p1 rest h1 h2 h3] at heq
        obtain rfl := Option.some.inj heq
        exact foldErr_mono ls _ _ _ h (mem_mapInsert_self _ _)
      · exact ih m2 h hl'

theorem foldErr_complete (ls : List GoStr) (m m' : List GoStr) (x : GoStr)
    (h : foldErrLines m ls = some m') (hx : x ∈ m') :
    x ∈ m ∨ ∃ l ∈ ls, ∃ p0 p1 rest, hasPrefixGo goFindingText l = true ∧ ¬ l.length < 12 ∧
      splitOnChar ' ' (l.drop 12) = p0 :: p1 :: rest ∧ x = p0 ++ '@' :: p1 := by
  revert h
  induction ls generalizing m with
  | nil =>
    intro h
    simp only [foldErrLines] at h
    rw [← Option.some.inj h] at hx
    exact Or.inl hx
  | cons l0 ls ih =>
    intro h
    unfold foldErrLines at h
    split at h
    · exact Option.noConfusion h
    · rename_i m2 heq
      rcases ih m2 h with hm2 | ⟨l, hl, p0, p1, rest, h1, h2, h3, hx'⟩
      · rcases processErrLine_some_cases m m2 l0 heq with rfl | ⟨p0, p1, rest, h1, h2, h3, rfl⟩
        · exact Or.inl hm2
        · rcases (mem_mapInsert_iff _ _ _).mp hm2 with hm | rfl
          · exact Or.inl hm
          · exact Or.inr ⟨l0, List.mem_cons_self _ _, p0, p1, rest, h1, h2, h3, rfl⟩
      · exact Or.inr ⟨l, List.mem_cons_of_mem _ hl, p0, p1, rest, h1, h2, h3, hx'⟩

/-- C2 counterexample: `outputToMap` does not return a map for every input
pair — on stderr `go: finding` it panics (`none`) instead. -/
theorem outputToMap_not_total :
    outputToMap ("".data) (("go: finding").data) = none := by decide

/-- C2 (amended): whenever `outputToMap` completes without panicking, the
returned set merges both outputs and nothing else: it is duplicate-free, it
holds the second field of every stdout line splitting into exactly two fields,
it holds `module@version` for every well-formed stderr finding line, and every
member arises in one of those two ways. -/
theorem outputToMap_merges (out errOut : GoStr) (m : List GoStr)
    (h : outputToMap out errOut = some m) :
    m.Nodup ∧
    (∀ l ∈ splitOnChar '\n' out, ∀ a b : GoStr, splitOnChar ' ' l = [a, b] → b ∈ m) ∧
    (∀ l ∈ splitOnChar '\n' errOut, ∀ p0 p1 : GoStr, ∀ rest : List GoStr,
      hasPrefixGo goFindingText l = true → ¬ l.length < 12 →
      splitOnChar ' ' (l.drop 12) = p0 :: p1 :: rest → (p0 ++ '@' :: p1) ∈ m) ∧
    (∀ x ∈ m,
      (∃ l ∈ splitOnChar '\n' out, ∃ a, splitOnChar ' ' l = [a, x]) ∨
      (∃ l ∈ splitOnChar '\n' errOut, ∃ p0 p1 rest,
        hasPrefixGo goFindingText l = true ∧ ¬ l.length < 12 ∧
        splitOnChar ' ' (l.drop 12) = p0 :: p1 :: rest ∧ x = p0 ++ '@' :: p1)) := by
  simp only [outputToMap] at h
  refine ⟨?_, ?_, ?_, ?_⟩
  · exact foldErr_nodup _ _ _ h (nodup_foldl_graph _ _ List.nodup_nil)
  · intro l hl a b hsplit
    exact foldErr_mono _ _ _ _ h (foldl_graph_captures _ _ _ _ _ hl hsplit)
  · intro l hl p0 p1 rest h1 h2 h3
    exact foldErr_sound _ _ _ _ _ _ _ h hl h1 h2 h3
  · intro x hx
    rcases foldErr_complete _ _ _ _ h hx with hmid | herr
    · rcases foldl_graph_cases _ _ _ hmid with hnil | hout
      · cases hnil
      · exact Or.inl hout
    · exact Or.inr herr

/-- Witness for C2 at a concrete pair of outputs. -/
theorem outputToMap_merges_witness :
    outputToMap ("A B\nC D E\nq".data) ("go: finding mod v1.0\nother".data) =
      some [("B".data), ("mod@v1.0".data)] ∧
    List.Nodup [("B".data), ("mod@v1.0".data)] :=
  ⟨by decide,
   (outputToMap_merges ("A B\nC D E\nq".data) ("go: finding mod v1.0\nother".data)
     [("B".data), ("mod@v1.0".data)] (by decide)).1⟩

end GoCmd
